import Mathlib

/-!
Verification of the bank-statement extraction/normalization/redaction core
(banca-inteligente). Strings are modelled as `List Char`; the JavaScript
regex-replace pipelines are embedded as executable scanners that follow the
operational (leftmost, backtracking) semantics of the concrete regexes used
by the source, specialized pattern by pattern.
-/

set_option maxRecDepth 10000

namespace BancaInteligente

/-- JavaScript `\w` character class (`[A-Za-z0-9_]`), the class on which the
`\b` word-boundary assertions of the redaction regexes are defined. -/
def jsWordChar (c : Char) : Bool :=
  c.isDigit || ('A' ≤ c && c ≤ 'Z') || ('a' ≤ c && c ≤ 'z') || c = '_'

/-- Separator characters tolerated inside the card-number pattern (`[ -]`). -/
def sepChar (c : Char) : Bool :=
  c = ' ' || c = '-'

/-- Word-status of the first character of a suffix (`false` at end of input),
used to evaluate `\b` between a previous character and the suffix. -/
def headWord : List Char → Bool
  | [] => false
  | c :: _ => jsWordChar c

/-- Word-status of the character at index `i` (`false` past the end). -/
def wordIdx (cs : List Char) (i : Nat) : Bool :=
  match cs.get? i with
  | some c => jsWordChar c
  | none => false

/-- Length of the maximal prefix of `cs` whose characters satisfy `p`
(the span consumed by a greedy repetition of the class `p`). -/
def runLen (p : Char → Bool) : List Char → Nat
  | [] => 0
  | c :: r => if p c then runLen p r + 1 else 0

/-- Length of the maximal digit prefix of `cs`. -/
def digitRunLen : List Char → Nat :=
  runLen Char.isDigit

/-! ## Card-number pattern `/\b(?:\d[ -]*?){13,16}\b/g`

`cardB rest pw count len` is the backtracking search inside the repetition
`(?:\d[ -]*?){13,16}` followed by the trailing `\b`, positioned at `rest`
with `count` repetitions already matched, `len` characters consumed so far,
and `pw` the word-status of the last consumed character.  Alternatives in
the regex engine's priority order: another (greedy) repetition first, then
exiting the repetition and testing `\b`, then lazily widening the current
repetition's `[ -]*?` by one separator.  Returns the total match length, the
word-status of the last matched character and the remaining suffix. -/
def cardB : List Char → Bool → Nat → Nat → Option (Nat × Bool × List Char)
  | rest, pw, count, len =>
    (if count < 16 then
      match rest with
      | c :: r => if c.isDigit then cardB r true (count + 1) (len + 1) else none
      | [] => none
     else none)
    <|>
    (if 13 ≤ count && pw != headWord rest then some (len, pw, rest) else none)
    <|>
    (match rest with
     | c :: r => if sepChar c then cardB r false count (len + 1) else none
     | [] => none)

/-- Attempt of the full card pattern at the start of `rest`, with `pw` the
word-status of the character before `rest`: the leading `\b` and the first
repetition's digit, then `cardB`. -/
def cardTryStart (pw : Bool) (rest : List Char) : Option (Nat × Bool × List Char) :=
  match rest with
  | c :: r =>
    if (pw != jsWordChar c) && c.isDigit then cardB r true 1 1 else none
  | [] => none

/-- Replacement text of the card rule. -/
def cardToken : List Char := "[NÚMERO DE TARJETA REDACTADO]".toList

/-- Global-replace scan of the card pattern: at each position, if the pattern
matches, emit the replacement token and resume after the match; otherwise
copy one character.  `fuel ≥ rest.length` suffices (each step consumes at
least one source character). -/
def cardScan : Nat → Bool → List Char → List Char
  | 0, _, _ => []
  | _ + 1, _, [] => []
  | fuel + 1, pw, c :: r =>
    match cardTryStart pw (c :: r) with
    | some (_, pw2, rest2) => cardToken ++ cardScan fuel pw2 rest2
    | none => c :: cardScan fuel (jsWordChar c) r

/-- `text.replace(/\b(?:\d[ -]*?){13,16}\b/g, '[NÚMERO DE TARJETA REDACTADO]')`. -/
def cardPass (cs : List Char) : List Char :=
  cardScan cs.length false cs

/-! ## Account-number pattern `/\b\d{10,20}\b/g` -/

/-- Backtracking over the greedy `\d{10,20}`: try the repetition count `k`
descending; a candidate succeeds when `k ≥ 10` and the trailing `\b` holds,
i.e. the character at offset `k` is not a word character (offset `k - 1`
being a digit). -/
def acctPick (cs : List Char) : Nat → Option Nat
  | 0 => none
  | k + 1 =>
    if k + 1 < 10 then none
    else if !wordIdx cs (k + 1) then some (k + 1)
    else acctPick cs k

/-- Attempt of the account pattern at the start of `rest` (leading `\b`,
then 10–20 digits, then `\b`). -/
def acctTryStart (pw : Bool) (rest : List Char) : Option (Nat × Bool × List Char) :=
  match rest with
  | c :: _ =>
    if (pw != jsWordChar c) && c.isDigit then
      match acctPick rest (min (digitRunLen rest) 20) with
      | some k => some (k, true, rest.drop k)
      | none => none
    else none
  | [] => none

/-- Replacement text of the account rule. -/
def acctToken : List Char := "[NÚMERO DE CUENTA REDACTADO]".toList

/-- Global-replace scan of the account pattern. -/
def acctScan : Nat → Bool → List Char → List Char
  | 0, _, _ => []
  | _ + 1, _, [] => []
  | fuel + 1, pw, c :: r =>
    match acctTryStart pw (c :: r) with
    | some (_, pw2, rest2) => acctToken ++ acctScan fuel pw2 rest2
    | none => c :: acctScan fuel (jsWordChar c) r

/-- `text.replace(/\b\d{10,20}\b/g, '[NÚMERO DE CUENTA REDACTADO]')`. -/
def acctPass (cs : List Char) : List Char :=
  acctScan cs.length false cs

/-! ## CLABE pattern `/\b\d{18}\b/g` -/

/-- Attempt of the CLABE pattern at the start of `rest` (leading `\b`, then
exactly 18 digits, then `\b`). -/
def clabeTryStart (pw : Bool) (rest : List Char) : Option (Nat × Bool × List Char) :=
  match rest with
  | c :: _ =>
    if (pw != jsWordChar c) && c.isDigit then
      if 18 ≤ digitRunLen rest && !wordIdx rest 18 then some (18, true, rest.drop 18)
      else none
    else none
  | [] => none

/-- Replacement text of the CLABE rule. -/
def clabeToken : List Char := "[CLABE REDACTADA]".toList

/-- Global-replace scan of the CLABE pattern. -/
def clabeScan : Nat → Bool → List Char → List Char
  | 0, _, _ => []
  | _ + 1, _, [] => []
  | fuel + 1, pw, c :: r =>
    match clabeTryStart pw (c :: r) with
    | some (_, pw2, rest2) => clabeToken ++ clabeScan fuel pw2 rest2
    | none => c :: clabeScan fuel (jsWordChar c) r

/-- `text.replace(/\b\d{18}\b/g, '[CLABE REDACTADA]')`. -/
def clabePass (cs : List Char) : List Char :=
  clabeScan cs.length false cs

/-! ## Email pattern `/[a-zA-Z0-9._%+-]+@[a-zA-Z0-9.-]+\.[a-zA-Z]{2,}/g` -/

/-- ASCII letter (`[a-zA-Z]`). -/
def asciiAlpha (c : Char) : Bool :=
  ('A' ≤ c && c ≤ 'Z') || ('a' ≤ c && c ≤ 'z')

/-- Local-part class `[a-zA-Z0-9._%+-]`. -/
def localChar (c : Char) : Bool :=
  asciiAlpha c || c.isDigit || c = '.' || c = '_' || c = '%' || c = '+' || c = '-'

/-- Domain class `[a-zA-Z0-9.-]`. -/
def domainChar (c : Char) : Bool :=
  asciiAlpha c || c.isDigit || c = '.' || c = '-'

/-- Backtracking of the greedy `[a-zA-Z0-9.-]+` before `\.[a-zA-Z]{2,}`:
with `dom` the text after `@`, try consuming `d` domain characters for `d`
descending (the argument is the candidate count), requiring a literal `.`
next and then a maximal ASCII-letter run of length at least 2 (the
`{2,}` repetition is greedy and last, so it takes the maximal run).
Returns the end offset within `dom`. -/
def domainPick (dom : List Char) : Nat → Option Nat
  | 0 => none
  | d + 1 =>
    (if dom.get? (d + 1) = some '.' then
      (let lr := runLen asciiAlpha (dom.drop (d + 2))
       if 2 ≤ lr then some (d + 2 + lr) else none)
     else none)
    <|> domainPick dom d

/-- Attempt of the email pattern at the start of `rest`.  The greedy
`[a-zA-Z0-9._%+-]+` takes the maximal run: since `@` is not in that class,
shrinking the run can never make the following literal `@` match, so only
the maximal run is consulted. -/
def emailTryStart (rest : List Char) : Option (Nat × List Char) :=
  let L := runLen localChar rest
  if L = 0 then none
  else if rest.get? L = some '@' then
    let dom := rest.drop (L + 1)
    match domainPick dom (runLen domainChar dom) with
    | some e => some (L + 1 + e, rest.drop (L + 1 + e))
    | none => none
  else none

/-- Replacement text of the email rule. -/
def emailToken : List Char := "[CORREO REDACTADO]".toList

/-- Global-replace scan of the email pattern (no `\b` anchors: an attempt is
made at every position, which realizes the leftmost-match rule). -/
def emailScan : Nat → List Char → List Char
  | 0, _ => []
  | _ + 1, [] => []
  | fuel + 1, c :: r =>
    match emailTryStart (c :: r) with
    | some (_, rest2) => emailToken ++ emailScan fuel rest2
    | none => c :: emailScan fuel r

/-- `text.replace(/[a-zA-Z0-9._%+-]+@[a-zA-Z0-9.-]+\.[a-zA-Z]{2,}/g, '[CORREO REDACTADO]')`. -/
def emailPass (cs : List Char) : List Char :=
  emailScan cs.length cs

/-! ## Titleholder pattern
`/Titular:?\s*([A-ZÁÉÍÓÚÑ][a-záéíóúñ]+\s+[A-ZÁÉÍÓÚÑ][a-záéíóúñ]+(?:\s+[A-ZÁÉÍÓÚÑ][a-záéíóúñ]+)?)/g` -/

/-- Class `[A-ZÁÉÍÓÚÑ]`. -/
def upperNameChar (c : Char) : Bool :=
  ('A' ≤ c && c ≤ 'Z') || c = 'Á' || c = 'É' || c = 'Í' || c = 'Ó' || c = 'Ú' || c = 'Ñ'

/-- Class `[a-záéíóúñ]`. -/
def lowerNameChar (c : Char) : Bool :=
  ('a' ≤ c && c ≤ 'z') || c = 'á' || c = 'é' || c = 'í' || c = 'ó' || c = 'ú' || c = 'ñ'

/-- JavaScript `\s` class (ASCII whitespace, NBSP and the Unicode space
separators recognized by the regex engine). -/
def jsSpace (c : Char) : Bool :=
  c = ' ' || c = '\t' || c = '\n' || c = '\r' || c = '\x0b' || c = '\x0c' ||
  c = '\u00A0' || c = '\u1680' || ('\u2000' ≤ c && c ≤ '\u200A') ||
  c = '\u2028' || c = '\u2029' || c = '\u202F' || c = '\u205F' ||
  c = '\u3000' || c = '\uFEFF'

/-- One capitalized word `[A-ZÁÉÍÓÚÑ][a-záéíóúñ]+` starting at offset `p`;
returns the end offset.  The greedy `[a-záéíóúñ]+` takes its maximal run:
every continuation of a word in this pattern starts with `\s`, an optional
group or the pattern end, none of which a lowercase-name character can
begin, so a shorter run never helps. -/
def nameWord (cs : List Char) (p : Nat) : Option Nat :=
  match cs.get? p with
  | some c =>
    if upperNameChar c then
      (let l := runLen lowerNameChar (cs.drop (p + 1))
       if 1 ≤ l then some (p + 1 + l) else none)
    else none
  | none => none

/-- Backtracking of a `\s+` followed by a capitalized word: try `w`
whitespace characters for `w` descending from the maximal run down to 1,
then the word at offset `p + w`.  (Success of a candidate only depends on
the word, because everything after a word in this pattern is optional.) -/
def spWordPick (cs : List Char) (p : Nat) : Nat → Option Nat
  | 0 => none
  | w + 1 => nameWord cs (p + (w + 1)) <|> spWordPick cs p w

/-- The part of the pattern after the first word ends at `e1`: the mandatory
`\s+` and second word, then the optional (greedy) `(?:\s+word)?`. -/
def nameAfterW1 (cs : List Char) (e1 : Nat) : Option Nat :=
  match spWordPick cs e1 (runLen jsSpace (cs.drop e1)) with
  | some e2 =>
    match spWordPick cs e2 (runLen jsSpace (cs.drop e2)) with
    | some e3 => some e3
    | none => some e2
  | none => none

/-- First word at offset `p`, then the rest of the name group. -/
def nameTryAt (cs : List Char) (p : Nat) : Option Nat :=
  match nameWord cs p with
  | some e1 => nameAfterW1 cs e1
  | none => none

/-- Backtracking of the `\s*` after `Titular:?`: try `w` whitespace
characters for `w` descending down to 0, threading the whole remaining
pattern (whose success depends on the choice). -/
def wsW1Pick (cs : List Char) (s : Nat) : Nat → Option Nat
  | 0 => nameTryAt cs s
  | w + 1 => nameTryAt cs (s + (w + 1)) <|> wsW1Pick cs s w

/-- Body of the name pattern from offset `s` (just after `Titular` or
`Titular:`). -/
def nameBody (rest : List Char) (s : Nat) : Option Nat :=
  wsW1Pick rest s (runLen jsSpace (rest.drop s))

/-- Attempt of the titleholder pattern at the start of `rest`: the literal
`Titular`, the greedy optional `:?` (with-colon first, then without), then
the body. -/
def nameTryStart (rest : List Char) : Option (Nat × List Char) :=
  if rest.take 7 = "Titular".toList then
    match
      (if rest.get? 7 = some ':' then nameBody rest 8 <|> nameBody rest 7
       else nameBody rest 7) with
    | some e => some (e, rest.drop e)
    | none => none
  else none

/-- Replacement text of the titleholder rule (a fixed string: the capture
group is not referenced). -/
def nameToken : List Char := "Titular: [NOMBRE REDACTADO]".toList

/-- Global-replace scan of the titleholder pattern. -/
def nameScan : Nat → List Char → List Char
  | 0, _ => []
  | _ + 1, [] => []
  | fuel + 1, c :: r =>
    match nameTryStart (c :: r) with
    | some (_, rest2) => nameToken ++ nameScan fuel rest2
    | none => c :: nameScan fuel r

/-- `text.replace(/Titular:?\s*([A-ZÁÉÍÓÚÑ][a-záéíóúñ]+\s+[A-ZÁÉÍÓÚÑ][a-záéíóúñ]+(?:\s+[A-ZÁÉÍÓÚÑ][a-záéíóúñ]+)?)/g, 'Titular: [NOMBRE REDACTADO]')`. -/
def namePass (cs : List Char) : List Char :=
  nameScan cs.length cs

/-! ## The sanitizers -/

/-- `sanitizePersonalData` of the character-normalization module: the five
replacements applied in the source's order — card number, account number,
CLABE, email, titleholder name. -/
def sanitizePersonalData (cs : List Char) : List Char :=
  namePass (emailPass (clabePass (acctPass (cardPass cs))))

/-- `sanitizePersonalData` of the simple PDF-extraction module: the same
first four replacements, without the titleholder rule. -/
def sanitizePersonalDataSimple (cs : List Char) : List Char :=
  emailPass (clabePass (acctPass (cardPass cs)))

/-! ## `normalizeBankText` (character-normalization and simple-extraction modules)

The JavaScript object literal `bankCharMap` contains duplicate keys
(`'÷'`, `'ø'`, `'ù'` appear twice); in JavaScript the later entry wins, so
`'÷' ↦ 'q'`, `'ø' ↦ 'p'`, `'ù' ↦ 'r'` (not `'7'`, `'8'`, `'9'`).  The
variant in the character-normalization module additionally lists a block of
punctuation keys mapped to themselves, which does not change the function. -/
def bankCharMap : Char → Option Char
  | 'ð' => some '0'
  | 'ñ' => some '1'
  | 'ò' => some '2'
  | 'ó' => some '3'
  | 'ô' => some '4'
  | 'õ' => some '5'
  | 'ö' => some '6'
  | '÷' => some 'q'
  | 'ø' => some 'p'
  | 'ù' => some 'r'
  | 'Õ' => some 'N'
  | 'Ö' => some 'O'
  | 'Ç' => some 'C'
  | 'É' => some 'E'
  | 'Á' => some 'A'
  | 'Å' => some 'E'
  | 'Â' => some 'B'
  | 'Ã' => some 'C'
  | 'Ä' => some 'D'
  | 'Æ' => some 'F'
  | 'È' => some 'H'
  | 'Ù' => some 'R'
  | 'Ú' => some 'S'
  | 'Û' => some 'T'
  | 'Ü' => some 'U'
  | 'Ý' => some 'V'
  | 'Þ' => some 'X'
  | 'ß' => some 'Y'
  | 'à' => some 'Z'
  | 'Ñ' => some 'Ñ'
  | 'ä' => some 'd'
  | 'ã' => some 'c'
  | 'â' => some 'b'
  | 'á' => some 'a'
  | 'å' => some 'e'
  | 'é' => some 'i'
  | 'è' => some 'h'
  | 'ç' => some 'g'
  | 'æ' => some 'f'
  | 'í' => some 'm'
  | 'ì' => some 'l'
  | 'ë' => some 'k'
  | 'ê' => some 'j'
  | 'ï' => some 'o'
  | 'î' => some 'n'
  | 'ú' => some 's'
  | 'ý' => some 'w'
  | 'ü' => some 'u'
  | 'û' => some 't'
  | '£' => some 'L'
  | '¢' => some 'o'
  | '×' => some 'x'
  | 'Ô' => some 'M'
  | 'Ò' => some 'K'
  | 'Ï' => some 'I'
  | 'Ð' => some 'J'
  | 'Ì' => some 'G'
  | '@' => some '@'
  | '#' => some '#'
  | '$' => some '$'
  | '%' => some '%'
  | '^' => some '^'
  | '&' => some '&'
  | '*' => some '*'
  | '(' => some '('
  | ')' => some ')'
  | '-' => some '-'
  | '+' => some '+'
  | '=' => some '='
  | '\x7b' => some '\x7b'
  | '\x7d' => some '\x7d'
  | '[' => some '['
  | ']' => some ']'
  | '|' => some '|'
  | '\\' => some '\\'
  | ':' => some ':'
  | ';' => some ';'
  | '"' => some '"'
  | '\'' => some '\''
  | '<' => some '<'
  | '>' => some '>'
  | ',' => some ','
  | '.' => some '.'
  | '?' => some '?'
  | '/' => some '/'
  | _ => none

/-- The character-substitution stage of `normalizeBankText`: the source's
`for` loop over the input, replacing each character that is a key of
`bankCharMap` and keeping every other character. -/
def normalizeBankChars (cs : List Char) : List Char :=
  cs.map (fun c =>
    match bankCharMap c with
    | some m => m
    | none => c)

/-- Global replace of `/([0-9]) ([0-9])/g` by `'$1$2'` (join digits split by
a single space; scanning resumes after each match, as `String.replace`
does). -/
def digitJoinScan : Nat → List Char → List Char
  | 0, _ => []
  | _ + 1, [] => []
  | fuel + 1, c :: r =>
    match r with
    | s :: d :: r2 =>
      if c.isDigit && s = ' ' && d.isDigit then c :: d :: digitJoinScan fuel r2
      else c :: digitJoinScan fuel (s :: d :: r2)
    | _ => c :: digitJoinScan fuel r

/-- `text.replace(/([0-9]) ([0-9])/g, '$1$2')`. -/
def digitJoinPass (cs : List Char) : List Char :=
  digitJoinScan cs.length cs

/-- Global replace of `/([0-9]),([0-9]{3})/g` by `'$1$2'` (drop a comma
between a digit and three digits). -/
def commaJoinScan : Nat → List Char → List Char
  | 0, _ => []
  | _ + 1, [] => []
  | fuel + 1, c :: r =>
    match r with
    | a :: d1 :: d2 :: d3 :: r2 =>
      if c.isDigit && a = ',' && d1.isDigit && d2.isDigit && d3.isDigit then
        c :: d1 :: d2 :: d3 :: commaJoinScan fuel r2
      else c :: commaJoinScan fuel (a :: d1 :: d2 :: d3 :: r2)
    | _ => c :: commaJoinScan fuel r

/-- `text.replace(/([0-9]),([0-9]{3})/g, '$1$2')`. -/
def commaJoinPass (cs : List Char) : List Char :=
  commaJoinScan cs.length cs

/-- The class matched by `.` in a JavaScript regex without the `s` flag:
any character except a line terminator. -/
def dotChar (c : Char) : Bool :=
  !(c = '\n' || c = '\r' || c = '\u2028' || c = '\u2029')

/-- Search for the closing `]` of the lazy `\[(.*?)\]`: the content runs to
the first `]`, and may not contain a line terminator. -/
def bracketSeek : List Char → Option (List Char × List Char)
  | [] => none
  | c :: r =>
    if c = ']' then some ([], r)
    else if dotChar c then
      match bracketSeek r with
      | some (content, rest) => some (c :: content, rest)
      | none => none
    else none

/-- Global replace of `/\[(.*?)\]/g` by `'$1'` (strip the brackets, keep the
content). -/
def bracketScan : Nat → List Char → List Char
  | 0, _ => []
  | _ + 1, [] => []
  | fuel + 1, c :: r =>
    if c = '[' then
      match bracketSeek r with
      | some (content, rest2) => content ++ bracketScan fuel rest2
      | none => c :: bracketScan fuel r
    else c :: bracketScan fuel r

/-- `text.replace(/\[(.*?)\]/g, '$1')`. -/
def bracketPass (cs : List Char) : List Char :=
  bracketScan cs.length cs

/-- Case-insensitive character comparison, as the `i` flag canonicalizes. -/
def ciEq (a b : Char) : Bool :=
  a.toLower = b.toLower

/-- Case-insensitive literal match of `pat` at the start of `cs`. -/
def ciMatch : List Char → List Char → Bool
  | [], _ => true
  | _ :: _, [] => false
  | p :: ps, c :: cs => ciEq p c && ciMatch ps cs

/-- Global case-insensitive replace of the literal `pat` by `rep`
(`text.replace(/pat/gi, rep)` for the abbreviation rules). -/
def abbrevScan (pat rep : List Char) : Nat → List Char → List Char
  | 0, _ => []
  | _ + 1, [] => []
  | fuel + 1, c :: r =>
    if ciMatch pat (c :: r) then rep ++ abbrevScan pat rep fuel ((c :: r).drop pat.length)
    else c :: abbrevScan pat rep fuel r

/-- One abbreviation-replacement call. -/
def abbrevPass (pat rep : String) (cs : List Char) : List Char :=
  abbrevScan pat.toList rep.toList cs.length cs

/-- `normalizeBankText`: the per-character substitution map followed by the
source's replace chain — digit joining, comma joining, bracket stripping and
the three abbreviation expansions, in order. -/
def normalizeBankText (cs : List Char) : List Char :=
  abbrevPass "Ref." "Referencia"
    (abbrevPass "Num." "Número"
      (abbrevPass "No." "Número"
        (bracketPass (commaJoinPass (digitJoinPass (normalizeBankChars cs))))))

/-! ## Bank detection -/

/-- Literal match of `needle` at the start of `hay`. -/
def beginsWith : List Char → List Char → Bool
  | [], _ => true
  | _ :: _, [] => false
  | p :: ps, c :: cs => p = c && beginsWith ps cs

/-- Occurrence of `needle` somewhere in `hay`. -/
def containsSeq (needle : List Char) : List Char → Bool
  | [] => beginsWith needle []
  | c :: r => beginsWith needle (c :: r) || containsSeq needle r

/-- `text.includes(needle)` on a `List Char` haystack. -/
def includesStr (hay : List Char) (needle : String) : Bool :=
  containsSeq needle.toList hay

/-- `detectBankType` of the character-normalization module.  `toUpperCase`
is modelled character-wise with `Char.toUpper`; the bank keywords are pure
ASCII, which `Char.toUpper` maps exactly as JavaScript does. -/
def detectBankType (text : List Char) : String :=
  let u := text.map Char.toUpper
  if includesStr u "HSBC" || includesStr u "2NOW" then "HSBC"
  else if includesStr u "BBVA" || includesStr u "BANCOMER" then "BBVA"
  else if includesStr u "SANTANDER" then "SANTANDER"
  else if includesStr u "BANORTE" then "BANORTE"
  else if includesStr u "BANAMEX" || includesStr u "CITIBANAMEX" then "CITIBANAMEX"
  else "Desconocido"

/-- `detectBankFromContent` of the enhanced-extraction and OCR-service
modules (textually the same decision chain as `detectBankType`). -/
def detectBankFromContent (text : List Char) : String :=
  let u := text.map Char.toUpper
  if includesStr u "HSBC" || includesStr u "2NOW" then "HSBC"
  else if includesStr u "BBVA" || includesStr u "BANCOMER" then "BBVA"
  else if includesStr u "SANTANDER" then "SANTANDER"
  else if includesStr u "BANORTE" then "BANORTE"
  else if includesStr u "BANAMEX" || includesStr u "CITIBANAMEX" then "CITIBANAMEX"
  else "Desconocido"

/-! ## Layout text extraction (`organizeIntoRows` / `processTextContent`)

A glyph is a PDF.js text item: `str` its text, `x = transform[4]`,
`y = transform[5]` (native, origin at the bottom), `width` its width.
`pageView` is modelled by its entry `pageView[3]`, the page height.
Coordinates are integers, which covers the comparisons and the
`Math.round`/`Math.abs` arithmetic of the source exactly. -/
structure Glyph where
  str : List Char
  x : Int
  y : Int
  width : Int

/-- Stable insertion of `g` after every element `h` with `le h g`
(JavaScript `Array.prototype.sort` is required to be stable, so any stable
sort realizes its result for a consistent comparator). -/
def insertAfterLe (le : Glyph → Glyph → Bool) (g : Glyph) : List Glyph → List Glyph
  | [] => [g]
  | h :: t => if le h g then h :: insertAfterLe le g t else g :: h :: t

/-- Stable sort by the relation `le` (insertion sort, processing the items
in their original order). -/
def stableSortBy (le : Glyph → Glyph → Bool) (items : List Glyph) : List Glyph :=
  items.foldl (fun acc g => insertAfterLe le g acc) []

/-- Order induced by the source comparator
`(a, b) => (pageHeight - b.transform[5]) - (pageHeight - a.transform[5])`:
`a` precedes `b` when the comparator is non-positive. -/
def ySortLe (h : Int) (a b : Glyph) : Bool :=
  decide ((h - b.y) - (h - a.y) ≤ 0)

/-- Order induced by the in-row comparator `(a, b) => a.transform[4] - b.transform[4]`. -/
def xSortLe (a b : Glyph) : Bool :=
  decide (a.x - b.x ≤ 0)

/-- Insert one sorted glyph into the row list: the first existing row whose
representative (its first element) has a top-down Y within `rowTolerance`
(3) of the glyph's top-down Y receives the glyph at its end; otherwise a
new singleton row is appended. -/
def addToRows (h : Int) (g : Glyph) : List (List Glyph) → List (List Glyph)
  | [] => [[g]]
  | row :: rest =>
    match row with
    | r0 :: _ =>
      if ((h - r0.y) - (h - g.y)).natAbs ≤ 3 then (row ++ [g]) :: rest
      else row :: addToRows h g rest
    | [] => [] :: addToRows h g rest

/-- `organizeIntoRows(textItems, pageView)`: sort the items with the
vertical comparator, then group them greedily into rows. -/
def organizeIntoRows (textItems : List Glyph) (h : Int) : List (List Glyph) :=
  (stableSortBy (ySortLe h) textItems).foldl (fun rows g => addToRows h g rows) []

/-- `Math.round(gap / 4)` on an integer gap (round half toward positive
infinity). -/
def jsRound4 (gap : Int) : Int :=
  Int.fdiv (gap + 2) 4

/-- Render one row: sort left-to-right by `x`, then concatenate the glyph
texts, preceding each glyph whose predecessor state `lastEndX` is positive
by `min(round(gap/4), 10)` spaces when that count is positive, where
`gap = x - lastEndX` and `lastEndX` is the previous glyph's `x + width`
(`item.width || 0` — the width field is always the stored integer here). -/
def renderRow (row : List Glyph) : List Char :=
  ((stableSortBy xSortLe row).foldl
    (fun (acc : List Char × Int) item =>
      let spacesNeeded := jsRound4 (item.x - acc.2)
      let withSpaces :=
        if acc.2 > 0 && spacesNeeded > 0 then
          acc.1 ++ List.replicate (min spacesNeeded 10).toNat ' '
        else acc.1
      (withSpaces ++ item.str, item.x + item.width))
    ([], 0)).1

/-- `processTextContent(textContent, pageView)`: empty item list gives the
empty string; otherwise the rendered rows joined with the source's
`'\\n'` — which in JavaScript is the two-character text `\n` (a backslash
followed by `n`), not a newline. -/
def processTextContent (items : List Glyph) (h : Int) : List Char :=
  if items.isEmpty then []
  else List.intercalate ['\\', 'n'] ((organizeIntoRows items h).map renderRow)

/-! ## Remote OCR models

The network-facing functions are embedded as functions of oracles: an
attempt oracle mapping the attempt index to the request outcome, a
compression oracle mapping a file to its compressed form (or a failure),
and a page-text oracle.  The observables kept are the ones the claims
speak about: results, retry delays, processed page numbers and transmitted
payload sizes. -/

/-- `extractTextFromImage(imageBase64, retryCount)` of the OCR-API module:
on any error, retry the same request while `retryCount < 2` after a fixed
1000 ms delay; surface the last error otherwise.  Returns the final outcome
and the list of delays that were slept. -/
def extractTextFromImage (attempt : Nat → Except String String) (retryCount : Nat) :
    Except String String × List Nat :=
  match attempt retryCount with
  | .ok t => (.ok t, [])
  | .error e =>
    if _h : retryCount < 2 then
      let r := extractTextFromImage attempt (retryCount + 1)
      (r.1, 1000 :: r.2)
    else (.error e, [])
  termination_by 2 - retryCount

/-- `extractTextWithOCR` of the OCR-API module: processes pages
`1 .. min(numPages, 4)` in order, accumulating each page's text (with a
page separator from page 2 on) and recording the processed page numbers. -/
def extractTextWithOCR (numPages : Nat) (pageText : Nat → List Char) :
    List Char × List Nat :=
  (List.range' 1 (min numPages 4)).foldl
    (fun acc i =>
      (acc.1 ++
        (if i > 1 then ("\n--- Página ".toList ++ (toString i).toList ++ " ---\n".toList)
         else []) ++ pageText i ++ ['\n'],
       acc.2 ++ [i]))
    ([], [])

/-- `processPdfByPages` of the OCR-service module: processes every page
`1 .. numPages` (a per-page failure is caught and processing continues), so
no page cap is applied. -/
def processPdfByPages (numPages : Nat) (pageText : Nat → List Char) :
    List Char × List Nat :=
  (List.range' 1 numPages).foldl
    (fun acc i =>
      (acc.1 ++ "\n--- Página ".toList ++ (toString i).toList ++ " ---\n".toList ++
        pageText i,
       acc.2 ++ [i]))
    ([], [])

/-- The OCR-service size constants: `MAX_FILE_SIZE` (1 MiB, free tier). -/
def MAX_FILE_SIZE : Nat := 1024 * 1024

/-- `MAX_PREMIUM_FILE_SIZE` (5 MiB, elevated tier). -/
def MAX_PREMIUM_FILE_SIZE : Nat := 5 * (1024 * 1024)

/-- A file as the OCR-service module observes it: its byte size and whether
its MIME type starts with `image/`. -/
structure OcrFile where
  size : Nat
  isImage : Bool

/-- `processIndividualFile(file, ...)` of the OCR-service module, with the
transmission abstracted: if the file exceeds `MAX_PREMIUM_FILE_SIZE`, an
image is compressed once and reprocessed only when the result is at most
`MAX_FILE_SIZE` (otherwise that page's OCR step fails); any file at most
`MAX_PREMIUM_FILE_SIZE` is transmitted as-is.  Returns the outcome and the
sizes of the transmitted payloads. -/
def processIndividualFile (compress : OcrFile → Except String OcrFile) (file : OcrFile) :
    Except String Unit × List Nat :=
  if hbig : file.size > MAX_PREMIUM_FILE_SIZE then
    if file.isImage then
      match compress file with
      | .ok cf =>
        if hcf : cf.size ≤ MAX_FILE_SIZE then processIndividualFile compress cf
        else (.error "too large even after compression", [])
      | .error e => (.error e, [])
    else (.error "file too large for processing", [])
  else (.ok (), [file.size])
  termination_by file.size
  decreasing_by
    simp only [MAX_FILE_SIZE, MAX_PREMIUM_FILE_SIZE] at hbig hcf
    omega

/-- `processImagePages(imageFiles, ...)` of the OCR-service module, keeping
the transmitted payload sizes: a page image whose size in MiB exceeds 0.95
gets one compression attempt (compression failure falls back to the
original file), and the page is then handed to `processIndividualFile`;
page-level errors are caught and processing continues. -/
def processImagePages (compressPage compress : OcrFile → Except String OcrFile)
    (files : List OcrFile) : List Nat :=
  files.foldl
    (fun acc f =>
      let toProcess :=
        if 100 * f.size > 95 * (1024 * 1024) then
          match compressPage f with
          | .ok cf => cf
          | .error _ => f
        else f
      acc ++ (processIndividualFile compress toProcess).2)
    []

/-! ## Lemmas: behaviour of the redaction passes on all-digit runs -/

theorem digit_jsWord {c : Char} (h : c.isDigit = true) : jsWordChar c = true := by
  simp [jsWordChar, h]

theorem digit_not_sep {c : Char} (h : c.isDigit = true) : sepChar c = false := by
  by_contra hne
  rw [Bool.not_eq_false] at hne
  simp only [sepChar, Bool.or_eq_true, decide_eq_true_eq] at hne
  rcases hne with rfl | rfl <;> exact absurd h (by decide)

theorem digit_localChar {c : Char} (h : c.isDigit = true) : localChar c = true := by
  simp [localChar, h]

theorem digit_ne_at {c : Char} (h : c.isDigit = true) : c ≠ '@' := by
  rintro rfl; exact absurd h (by decide)

theorem digit_ne_tee {c : Char} (h : c.isDigit = true) : c ≠ 'T' := by
  rintro rfl; exact absurd h (by decide)

theorem runLen_all {p : Char → Bool} {cs : List Char} (h : ∀ c ∈ cs, p c = true) :
    runLen p cs = cs.length := by
  induction cs with
  | nil => rfl
  | cons c r ih =>
    simp only [runLen, h c (List.mem_cons_self c r), if_true, List.length_cons]
    exact congrArg (· + 1) (ih fun x hx => h x (List.mem_cons_of_mem c hx))

theorem digitRunLen_all {cs : List Char} (h : ∀ c ∈ cs, c.isDigit = true) :
    digitRunLen cs = cs.length :=
  runLen_all h

theorem wordIdx_digits {cs : List Char} (h : ∀ c ∈ cs, c.isDigit = true) (i : Nat) :
    wordIdx cs i = decide (i < cs.length) := by
  unfold wordIdx
  cases hg : cs.get? i with
  | none =>
    rw [List.get?_eq_none] at hg
    simp [Nat.not_lt_of_le hg]
  | some c =>
    have hmem : c ∈ cs := List.get?_mem hg
    have hlt : i < cs.length := List.get?_eq_some.mp hg |>.choose
    simp [digit_jsWord (h c hmem), hlt]

theorem cardB_digits {cs : List Char} (hd : ∀ c ∈ cs, c.isDigit = true) :
    ∀ count len : Nat, count ≤ 16 →
      cardB cs true count len =
        if 13 ≤ count + cs.length ∧ count + cs.length ≤ 16 then
          some (len + cs.length, true, []) else none := by
  induction cs with
  | nil =>
    intro count len hc
    rw [cardB]
    simp only [headWord, ite_self, Option.none_orElse, Option.orElse_none,
      List.length_nil, Nat.add_zero]
    by_cases h13 : 13 ≤ count
    · rw [if_pos (by simp [h13]), if_pos ⟨h13, hc⟩]
    · rw [if_neg (by simp [h13]), if_neg (fun hcon => h13 hcon.1)]
  | cons c r ih =>
    intro count len hc
    have hcd : c.isDigit = true := hd c (List.mem_cons_self c r)
    have hrd : ∀ x ∈ r, x.isDigit = true := fun x hx => hd x (List.mem_cons_of_mem c hx)
    rw [cardB]
    simp only [headWord, digit_jsWord hcd, hcd, digit_not_sep hcd, if_true,
      Bool.false_eq_true, if_false, bne_self_eq_false, Bool.and_false,
      Option.orElse_none, Option.none_orElse, List.length_cons]
    rcases Nat.lt_or_ge count 16 with h16 | h16
    · rw [if_pos h16, ih hrd (count + 1) (len + 1) h16]
      have e1 : count + 1 + r.length = count + (r.length + 1) := by omega
      have e2 : len + 1 + r.length = len + (r.length + 1) := by omega
      rw [e1, e2]
    · rw [if_neg (Nat.not_lt_of_le h16), if_neg (by omega)]

theorem cardTryStart_false_digits {cs : List Char} (hd : ∀ c ∈ cs, c.isDigit = true) :
    cardTryStart false cs =
      if 13 ≤ cs.length ∧ cs.length ≤ 16 then some (cs.length, true, []) else none := by
  cases cs with
  | nil => rw [cardTryStart, if_neg (by simp)]
  | cons c r =>
    have hcd : c.isDigit = true := hd c (List.mem_cons_self c r)
    have hrd : ∀ x ∈ r, x.isDigit = true := fun x hx => hd x (List.mem_cons_of_mem c hx)
    rw [cardTryStart]
    rw [if_pos (show ((false != jsWordChar c) && c.isDigit) = true by
      simp [digit_jsWord hcd, hcd])]
    rw [cardB_digits hrd 1 1 (by omega), List.length_cons]
    have e1 : 1 + r.length = r.length + 1 := by omega
    rw [e1]

theorem cardTryStart_true_digits {cs : List Char} (hd : ∀ c ∈ cs, c.isDigit = true) :
    cardTryStart true cs = none := by
  cases cs with
  | nil => rfl
  | cons c r =>
    rw [cardTryStart]
    simp [digit_jsWord (hd c (List.mem_cons_self c r))]

theorem cardScan_nil (fuel : Nat) (pw : Bool) : cardScan fuel pw [] = [] := by
  cases fuel <;> rfl

theorem cardScan_true_digits {cs : List Char} (hd : ∀ c ∈ cs, c.isDigit = true) :
    ∀ fuel : Nat, cs.length ≤ fuel → cardScan fuel true cs = cs := by
  induction cs with
  | nil => intro fuel _; exact cardScan_nil fuel true
  | cons c r ih =>
    intro fuel hf
    cases fuel with
    | zero => simp at hf
    | succ f =>
      have hcd : c.isDigit = true := hd c (List.mem_cons_self c r)
      have hrd : ∀ x ∈ r, x.isDigit = true := fun x hx => hd x (List.mem_cons_of_mem c hx)
      rw [cardScan, cardTryStart_true_digits hd]
      rw [digit_jsWord hcd, ih hrd f (by simpa using hf)]

theorem cardPass_digits {cs : List Char} (hd : ∀ c ∈ cs, c.isDigit = true) :
    cardPass cs = if 13 ≤ cs.length ∧ cs.length ≤ 16 then cardToken else cs := by
  unfold cardPass
  cases cs with
  | nil => rw [cardScan_nil, if_neg (by simp)]
  | cons c r =>
    have hcd : c.isDigit = true := hd c (List.mem_cons_self c r)
    have hrd : ∀ x ∈ r, x.isDigit = true := fun x hx => hd x (List.mem_cons_of_mem c hx)
    rw [List.length_cons, cardScan, cardTryStart_false_digits hd]
    by_cases hcond : 13 ≤ r.length + 1 ∧ r.length + 1 ≤ 16
    · rw [if_pos (by simpa using hcond)]
      show cardToken ++ cardScan r.length true [] = _
      rw [cardScan_nil, List.append_nil, if_pos hcond]
    · rw [if_neg (by simpa using hcond)]
      show c :: cardScan r.length (jsWordChar c) r = _
      rw [digit_jsWord hcd, cardScan_true_digits hrd r.length (Nat.le_refl _), if_neg hcond]

theorem acctPick_digits {cs : List Char} (hd : ∀ c ∈ cs, c.isDigit = true) :
    ∀ k : Nat, k ≤ cs.length →
      acctPick cs k = if 10 ≤ cs.length ∧ cs.length ≤ k then some cs.length else none := by
  intro k
  induction k with
  | zero => intro _; rw [acctPick, if_neg (by omega)]
  | succ k ih =>
    intro hk
    rw [acctPick]
    by_cases h10 : k + 1 < 10
    · rw [if_pos h10, if_neg (by omega)]
    · rw [if_neg h10, wordIdx_digits hd (k + 1)]
      rcases Nat.lt_or_ge (k + 1) cs.length with hlt | hge
      · rw [if_neg (by simp [hlt]), ih (by omega), if_neg (by omega), if_neg (by omega)]
      · have heq : k + 1 = cs.length := by omega
        rw [if_pos (by simp [Nat.not_lt_of_le hge]), if_pos (by omega), heq]

theorem acctTryStart_false_digits {cs : List Char} (hd : ∀ c ∈ cs, c.isDigit = true) :
    acctTryStart false cs =
      if 10 ≤ cs.length ∧ cs.length ≤ 20 then some (cs.length, true, []) else none := by
  cases cs with
  | nil => rw [acctTryStart, if_neg (by simp)]
  | cons c r =>
    have hcd : c.isDigit = true := hd c (List.mem_cons_self c r)
    rw [acctTryStart]
    rw [if_pos (show ((false != jsWordChar c) && c.isDigit) = true by
      simp [digit_jsWord hcd, hcd])]
    rw [digitRunLen_all hd]
    rw [acctPick_digits hd (min (c :: r).length 20) (Nat.min_le_left _ _)]
    by_cases hcond : 10 ≤ (c :: r).length ∧ (c :: r).length ≤ 20
    · rw [if_pos (by omega), if_pos hcond]
      show some ((c :: r).length, true, (c :: r).drop (c :: r).length) = _
      rw [List.drop_length]
    · rw [if_neg (by omega), if_neg hcond]

theorem acctTryStart_true_digits {cs : List Char} (hd : ∀ c ∈ cs, c.isDigit = true) :
    acctTryStart true cs = none := by
  cases cs with
  | nil => rfl
  | cons c r =>
    rw [acctTryStart]
    simp [digit_jsWord (hd c (List.mem_cons_self c r))]

theorem acctScan_nil (fuel : Nat) (pw : Bool) : acctScan fuel pw [] = [] := by
  cases fuel <;> rfl

theorem acctScan_true_digits {cs : List Char} (hd : ∀ c ∈ cs, c.isDigit = true) :
    ∀ fuel : Nat, cs.length ≤ fuel → acctScan fuel true cs = cs := by
  induction cs with
  | nil => intro fuel _; exact acctScan_nil fuel true
  | cons c r ih =>
    intro fuel hf
    cases fuel with
    | zero => simp at hf
    | succ f =>
      have hcd : c.isDigit = true := hd c (List.mem_cons_self c r)
      have hrd : ∀ x ∈ r, x.isDigit = true := fun x hx => hd x (List.mem_cons_of_mem c hx)
      rw [acctScan, acctTryStart_true_digits hd]
      rw [digit_jsWord hcd, ih hrd f (by simpa using hf)]

theorem acctPass_digits {cs : List Char} (hd : ∀ c ∈ cs, c.isDigit = true) :
    acctPass cs = if 10 ≤ cs.length ∧ cs.length ≤ 20 then acctToken else cs := by
  unfold acctPass
  cases cs with
  | nil => rw [acctScan_nil, if_neg (by simp)]
  | cons c r =>
    have hcd : c.isDigit = true := hd c (List.mem_cons_self c r)
    have hrd : ∀ x ∈ r, x.isDigit = true := fun x hx => hd x (List.mem_cons_of_mem c hx)
    rw [List.length_cons, acctScan, acctTryStart_false_digits hd]
    by_cases hcond : 10 ≤ r.length + 1 ∧ r.length + 1 ≤ 20
    · rw [if_pos (by simpa using hcond)]
      show acctToken ++ acctScan r.length true [] = _
      rw [acctScan_nil, List.append_nil, if_pos hcond]
    · rw [if_neg (by simpa using hcond)]
      show c :: acctScan r.length (jsWordChar c) r = _
      rw [digit_jsWord hcd, acctScan_true_digits hrd r.length (Nat.le_refl _), if_neg hcond]

theorem clabeTryStart_false_digits {cs : List Char} (hd : ∀ c ∈ cs, c.isDigit = true) :
    clabeTryStart false cs =
      if cs.length = 18 then some (18, true, []) else none := by
  cases cs with
  | nil => rw [clabeTryStart, if_neg (by simp)]
  | cons c r =>
    have hcd : c.isDigit = true := hd c (List.mem_cons_self c r)
    rw [clabeTryStart]
    rw [if_pos (show ((false != jsWordChar c) && c.isDigit) = true by
      simp [digit_jsWord hcd, hcd])]
    rw [digitRunLen_all hd, wordIdx_digits hd 18]
    by_cases hcond : (c :: r).length = 18
    · rw [if_pos (by rw [hcond]; simp), if_pos hcond]
      show some (18, true, (c :: r).drop 18) = _
      rw [← hcond, List.drop_length]
    · have hfalse : (decide (18 ≤ (c :: r).length) && !decide (18 < (c :: r).length)) = false := by
        rcases Nat.lt_trichotomy (c :: r).length 18 with h | h | h
        · simp only [List.length_cons] at h
          simp
          omega
        · exact absurd h hcond
        · simp only [List.length_cons] at h
          simp
          omega
      rw [if_neg (by rw [hfalse]; simp), if_neg hcond]

theorem clabeTryStart_true_digits {cs : List Char} (hd : ∀ c ∈ cs, c.isDigit = true) :
    clabeTryStart true cs = none := by
  cases cs with
  | nil => rfl
  | cons c r =>
    rw [clabeTryStart]
    simp [digit_jsWord (hd c (List.mem_cons_self c r))]

theorem clabeScan_nil (fuel : Nat) (pw : Bool) : clabeScan fuel pw [] = [] := by
  cases fuel <;> rfl

theorem clabeScan_true_digits {cs : List Char} (hd : ∀ c ∈ cs, c.isDigit = true) :
    ∀ fuel : Nat, cs.length ≤ fuel → clabeScan fuel true cs = cs := by
  induction cs with
  | nil => intro fuel _; exact clabeScan_nil fuel true
  | cons c r ih =>
    intro fuel hf
    cases fuel with
    | zero => simp at hf
    | succ f =>
      have hcd : c.isDigit = true := hd c (List.mem_cons_self c r)
      have hrd : ∀ x ∈ r, x.isDigit = true := fun x hx => hd x (List.mem_cons_of_mem c hx)
      rw [clabeScan, clabeTryStart_true_digits hd]
      rw [digit_jsWord hcd, ih hrd f (by simpa using hf)]

theorem clabePass_digits {cs : List Char} (hd : ∀ c ∈ cs, c.isDigit = true) :
    clabePass cs = if cs.length = 18 then clabeToken else cs := by
  unfold clabePass
  cases cs with
  | nil => rw [clabeScan_nil, if_neg (by simp)]
  | cons c r =>
    have hcd : c.isDigit = true := hd c (List.mem_cons_self c r)
    have hrd : ∀ x ∈ r, x.isDigit = true := fun x hx => hd x (List.mem_cons_of_mem c hx)
    rw [List.length_cons, clabeScan, clabeTryStart_false_digits hd]
    by_cases hcond : r.length + 1 = 18
    · rw [if_pos (by simpa using hcond)]
      show clabeToken ++ clabeScan r.length true [] = _
      rw [clabeScan_nil, List.append_nil, if_pos hcond]
    · rw [if_neg (by simpa using hcond)]
      show c :: clabeScan r.length (jsWordChar c) r = _
      rw [digit_jsWord hcd, clabeScan_true_digits hrd r.length (Nat.le_refl _), if_neg hcond]

theorem emailTryStart_no_at {cs : List Char} (h : '@' ∉ cs) : emailTryStart cs = none := by
  rw [emailTryStart]
  by_cases hL : runLen localChar cs = 0
  · simp [hL]
  · rw [if_neg hL]
    have hne : ¬ cs.get? (runLen localChar cs) = some '@' := by
      intro hg
      exact h (List.get?_mem hg)
    rw [if_neg hne]

theorem emailScan_no_at {cs : List Char} (h : '@' ∉ cs) :
    ∀ fuel : Nat, cs.length ≤ fuel → emailScan fuel cs = cs := by
  induction cs with
  | nil => intro fuel _; cases fuel <;> rfl
  | cons c r ih =>
    intro fuel hf
    cases fuel with
    | zero => simp at hf
    | succ f =>
      rw [emailScan, emailTryStart_no_at h]
      rw [ih (fun hm => h (List.mem_cons_of_mem c hm)) f (by simpa using hf)]

theorem emailPass_no_at {cs : List Char} (h : '@' ∉ cs) : emailPass cs = cs :=
  emailScan_no_at h cs.length (Nat.le_refl _)

theorem nameTryStart_no_tee {cs : List Char} (h : 'T' ∉ cs) : nameTryStart cs = none := by
  rw [nameTryStart]
  rw [if_neg]
  intro htake
  cases cs with
  | nil => simp at htake
  | cons c r =>
    have : c = 'T' := by
      have h7 : "Titular".toList = 'T' :: "itular".toList := rfl
      rw [h7] at htake
      simpa using congrArg (fun l => l.head?) htake
    exact h (this ▸ List.mem_cons_self c r)

theorem nameScan_no_tee {cs : List Char} (h : 'T' ∉ cs) :
    ∀ fuel : Nat, cs.length ≤ fuel → nameScan fuel cs = cs := by
  induction cs with
  | nil => intro fuel _; cases fuel <;> rfl
  | cons c r ih =>
    intro fuel hf
    cases fuel with
    | zero => simp at hf
    | succ f =>
      rw [nameScan, nameTryStart_no_tee h]
      rw [ih (fun hm => h (List.mem_cons_of_mem c hm)) f (by simpa using hf)]

theorem namePass_no_tee {cs : List Char} (h : 'T' ∉ cs) : namePass cs = cs :=
  nameScan_no_tee h cs.length (Nat.le_refl _)

/-- Claim C1, counterexample: on the exactly-18-contiguous-digit run
`123456789012345678` the redactor produces the account token, not the CLABE
token `[CLABE REDACTADA]` — the account rule runs first and consumes the
run, so the claimed CLABE labeling is false at this input. -/
theorem claim_C1_counterexample :
    sanitizePersonalData ("123456789012345678".toList) =
      "[NÚMERO DE CUENTA REDACTADO]".toList ∧
    sanitizePersonalDataSimple ("123456789012345678".toList) =
      "[NÚMERO DE CUENTA REDACTADO]".toList ∧
    "[NÚMERO DE CUENTA REDACTADO]".toList ≠ "[CLABE REDACTADA]".toList := by
  refine ⟨by decide, by decide, by decide⟩

/-- Claim C1, amended: for every input text that is an exactly-18-contiguous
digit run, both sanitizers label it with the account token
`[NÚMERO DE CUENTA REDACTADO]`: the 10–20-digit account rule is applied
before the CLABE rule and consumes the run (the card rule does not match
an 18-digit run), and the later rules leave the inserted token unchanged,
so no already-redacted span is redacted a second time. -/
theorem claim_C1_amended (ds : List Char) (h18 : ds.length = 18)
    (hd : ∀ c ∈ ds, c.isDigit = true) :
    sanitizePersonalData ds = "[NÚMERO DE CUENTA REDACTADO]".toList ∧
    sanitizePersonalDataSimple ds = "[NÚMERO DE CUENTA REDACTADO]".toList := by
  have hcard : cardPass ds = ds := by rw [cardPass_digits hd, if_neg (by omega)]
  have hacct : acctPass ds = acctToken := by rw [acctPass_digits hd, if_pos (by omega)]
  have hrest1 : namePass (emailPass (clabePass acctToken)) = acctToken := by decide
  have hrest2 : emailPass (clabePass acctToken) = acctToken := by decide
  constructor
  · unfold sanitizePersonalData
    rw [hcard, hacct]
    exact hrest1
  · unfold sanitizePersonalDataSimple
    rw [hcard, hacct]
    exact hrest2

/-- Witness for the amended claim C1 at a concrete 18-digit run. -/
theorem claim_C1_amended_witness :
    ("123456789012345671".toList.length = 18 ∧
      (∀ c ∈ "123456789012345671".toList, c.isDigit = true)) ∧
    sanitizePersonalData ("123456789012345671".toList) =
      "[NÚMERO DE CUENTA REDACTADO]".toList :=
  ⟨⟨by decide, by decide⟩, (claim_C1_amended _ (by decide) (by decide)).1⟩

/-- Claim C2, counterexample: the text `123456789012345678901@x.co` contains
a contiguous run of 21 digits, yet `sanitizePersonalData` does not leave the
run unchanged — the email rule swallows it (its local part admits digits),
leaving a token with no digits at all. -/
theorem claim_C2_counterexample :
    sanitizePersonalData ("123456789012345678901@x.co".toList) =
      "[CORREO REDACTADO]".toList ∧
    sanitizePersonalData ("123456789012345678901@x.co".toList) ≠
      "123456789012345678901@x.co".toList ∧
    ("[CORREO REDACTADO]".toList.filter Char.isDigit) = [] := by
  refine ⟨by decide, by decide, by decide⟩

/-- Claim C2, amended: every input text that is a contiguous run of more
than 20 digits passes through both sanitizers completely unchanged: the
card, account and CLABE patterns are word-boundary-anchored and cannot
match inside the over-long run, and the email and titleholder rules need
characters (`@`, `T`) that a digit run lacks.  (A run embedded in an
email-shaped string is redacted by the email rule instead.) -/
theorem claim_C2 (ds : List Char) (h20 : 20 < ds.length)
    (hd : ∀ c ∈ ds, c.isDigit = true) :
    sanitizePersonalData ds = ds ∧ sanitizePersonalDataSimple ds = ds := by
  have hcard : cardPass ds = ds := by rw [cardPass_digits hd, if_neg (by omega)]
  have hacct : acctPass ds = ds := by rw [acctPass_digits hd, if_neg (by omega)]
  have hclabe : clabePass ds = ds := by rw [clabePass_digits hd, if_neg (by omega)]
  have hemail : emailPass ds = ds := emailPass_no_at (fun hm => digit_ne_at (hd _ hm) rfl)
  have hname : namePass ds = ds := namePass_no_tee (fun hm => digit_ne_tee (hd _ hm) rfl)
  constructor
  · unfold sanitizePersonalData
    rw [hcard, hacct, hclabe, hemail, hname]
  · unfold sanitizePersonalDataSimple
    rw [hcard, hacct, hclabe, hemail]

/-- Witness for the amended claim C2 at a concrete 21-digit run. -/
theorem claim_C2_witness :
    (20 < "999999999999999999999".toList.length ∧
      (∀ c ∈ "999999999999999999999".toList, c.isDigit = true)) ∧
    sanitizePersonalData ("999999999999999999999".toList) =
      "999999999999999999999".toList :=
  ⟨⟨by decide, by decide⟩, (claim_C2 _ (by decide) (by decide)).1⟩

/-- Claim C3, counterexample: redaction is not idempotent.  On
`a@b.co1234567890123` the first pass replaces the email and leaves
`[CORREO REDACTADO]1234567890123`; the token's closing bracket creates a
word boundary before the 13-digit run, which the card rule then redacts on
the second pass, so `redact (redact x) ≠ redact x`. -/
theorem claim_C3_counterexample :
    sanitizePersonalData (sanitizePersonalData ("a@b.co1234567890123".toList)) ≠
      sanitizePersonalData ("a@b.co1234567890123".toList) := by
  decide

/-- Claim C3, amended: each of the five replacement tokens is itself a fixed
point of the whole pipeline — the bracketed token text matches none of the
five patterns — but idempotence fails on general texts, because a
replacement can create a word boundary that exposes an adjacent digit run
on the second run. -/
theorem claim_C3_amended :
    sanitizePersonalData ("[NÚMERO DE TARJETA REDACTADO]".toList) =
      "[NÚMERO DE TARJETA REDACTADO]".toList ∧
    sanitizePersonalData ("[NÚMERO DE CUENTA REDACTADO]".toList) =
      "[NÚMERO DE CUENTA REDACTADO]".toList ∧
    sanitizePersonalData ("[CLABE REDACTADA]".toList) = "[CLABE REDACTADA]".toList ∧
    sanitizePersonalData ("[CORREO REDACTADO]".toList) = "[CORREO REDACTADO]".toList ∧
    sanitizePersonalData ("Titular: [NOMBRE REDACTADO]".toList) =
      "Titular: [NOMBRE REDACTADO]".toList := by
  refine ⟨by decide, by decide, by decide, by decide, by decide⟩

theorem beginsWith_iff {n h : List Char} : beginsWith n h = true ↔ n <+: h := by
  induction n generalizing h with
  | nil => simp [beginsWith]
  | cons p ps ih =>
    cases h with
    | nil => simp [beginsWith]
    | cons c cs =>
      rw [beginsWith, List.cons_prefix_cons]
      simp [ih]

theorem containsSeq_iff {n h : List Char} : containsSeq n h = true ↔ n <:+: h := by
  induction h with
  | nil =>
    rw [containsSeq, beginsWith_iff]
    simp
  | cons c r ih =>
    rw [containsSeq, Bool.or_eq_true, beginsWith_iff, ih, List.infix_cons_iff]

theorem includesStr_iff {h : List Char} {n : String} :
    includesStr h n = true ↔ n.toList <:+: h :=
  containsSeq_iff

theorem infix_map {l₁ l₂ : List Char} (f : Char → Char) (h : l₁ <:+: l₂) :
    l₁.map f <:+: l₂.map f := by
  obtain ⟨s, t, rfl⟩ := h
  exact ⟨s.map f, t.map f, by simp⟩

/-- Claim C5: bank detection is a first-match priority containment check —
a text containing both `HSBC` and `BBVA` is detected as HSBC (HSBC is
checked first), and a text whose upper-cased form contains none of the
keywords is detected as `Desconocido`; both implementations of the check
agree. -/
theorem claim_C5 :
    (∀ t : List Char, "HSBC".toList <:+: t → "BBVA".toList <:+: t →
      detectBankType t = "HSBC" ∧ detectBankFromContent t = "HSBC") ∧
    (∀ t : List Char,
      ¬ ("HSBC".toList <:+: t.map Char.toUpper) →
      ¬ ("2NOW".toList <:+: t.map Char.toUpper) →
      ¬ ("BBVA".toList <:+: t.map Char.toUpper) →
      ¬ ("BANCOMER".toList <:+: t.map Char.toUpper) →
      ¬ ("SANTANDER".toList <:+: t.map Char.toUpper) →
      ¬ ("BANORTE".toList <:+: t.map Char.toUpper) →
      ¬ ("BANAMEX".toList <:+: t.map Char.toUpper) →
      detectBankType t = "Desconocido" ∧ detectBankFromContent t = "Desconocido") := by
  constructor
  · intro t hh _hb
    have hup : "HSBC".toList <:+: t.map Char.toUpper := by
      have := infix_map Char.toUpper hh
      rwa [(by decide : "HSBC".toList.map Char.toUpper = "HSBC".toList)] at this
    have e : includesStr (t.map Char.toUpper) "HSBC" = true := includesStr_iff.mpr hup
    constructor
    · rw [detectBankType]
      simp [e]
    · rw [detectBankFromContent]
      simp [e]
  · intro t h1 h2 h3 h4 h5 h6 h7
    have hciti : ¬ ("CITIBANAMEX".toList <:+: t.map Char.toUpper) := fun hc =>
      h7 (List.IsInfix.trans (by decide : "BANAMEX".toList <:+: "CITIBANAMEX".toList) hc)
    have e1 : includesStr (t.map Char.toUpper) "HSBC" = false := by
      rw [← Bool.not_eq_true]; exact fun hb => h1 (includesStr_iff.mp hb)
    have e2 : includesStr (t.map Char.toUpper) "2NOW" = false := by
      rw [← Bool.not_eq_true]; exact fun hb => h2 (includesStr_iff.mp hb)
    have e3 : includesStr (t.map Char.toUpper) "BBVA" = false := by
      rw [← Bool.not_eq_true]; exact fun hb => h3 (includesStr_iff.mp hb)
    have e4 : includesStr (t.map Char.toUpper) "BANCOMER" = false := by
      rw [← Bool.not_eq_true]; exact fun hb => h4 (includesStr_iff.mp hb)
    have e5 : includesStr (t.map Char.toUpper) "SANTANDER" = false := by
      rw [← Bool.not_eq_true]; exact fun hb => h5 (includesStr_iff.mp hb)
    have e6 : includesStr (t.map Char.toUpper) "BANORTE" = false := by
      rw [← Bool.not_eq_true]; exact fun hb => h6 (includesStr_iff.mp hb)
    have e7 : includesStr (t.map Char.toUpper) "BANAMEX" = false := by
      rw [← Bool.not_eq_true]; exact fun hb => h7 (includesStr_iff.mp hb)
    have e8 : includesStr (t.map Char.toUpper) "CITIBANAMEX" = false := by
      rw [← Bool.not_eq_true]; exact fun hb => hciti (includesStr_iff.mp hb)
    constructor
    · rw [detectBankType]
      simp [e1, e2, e3, e4, e5, e6, e7, e8]
    · rw [detectBankFromContent]
      simp [e1, e2, e3, e4, e5, e6, e7, e8]

/-- Witness for claim C5 at concrete texts: a text with both keywords, and
a keyword-free text. -/
theorem claim_C5_witness :
    detectBankType ("BBVA y HSBC".toList) = "HSBC" ∧
    detectBankFromContent ("BBVA y HSBC".toList) = "HSBC" ∧
    detectBankType ("hola mundo".toList) = "Desconocido" := by
  refine ⟨(claim_C5.1 ("BBVA y HSBC".toList) (by decide) (by decide)).1,
    (claim_C5.1 ("BBVA y HSBC".toList) (by decide) (by decide)).2,
    (claim_C5.2 ("hola mundo".toList) (by decide) (by decide) (by decide) (by decide)
      (by decide) (by decide) (by decide)).1⟩

/-- Claim C10: the per-character substitution map of `normalizeBankText`
rewrites every occurrence of the correctly-spelled accented lowercase
vowels — `ó` to `3`, `é` to `i`, `í` to `m`, `ú` to `s` — wherever they
occur, and the full normalizer is therefore not the identity even on clean
Spanish text. -/
theorem claim_C10 :
    (∀ pre suf : List Char,
      normalizeBankChars (pre ++ 'ó' :: suf) =
        normalizeBankChars pre ++ '3' :: normalizeBankChars suf ∧
      normalizeBankChars (pre ++ 'é' :: suf) =
        normalizeBankChars pre ++ 'i' :: normalizeBankChars suf ∧
      normalizeBankChars (pre ++ 'í' :: suf) =
        normalizeBankChars pre ++ 'm' :: normalizeBankChars suf ∧
      normalizeBankChars (pre ++ 'ú' :: suf) =
        normalizeBankChars pre ++ 's' :: normalizeBankChars suf) ∧
    normalizeBankText ("ó".toList) = "3".toList ∧
    normalizeBankText ("é".toList) = "i".toList ∧
    normalizeBankText ("í".toList) = "m".toList ∧
    normalizeBankText ("ú".toList) = "s".toList ∧
    normalizeBankText ("crédito".toList) ≠ "crédito".toList := by
  constructor
  · intro pre suf
    refine ⟨?_, ?_, ?_, ?_⟩ <;>
      simp [normalizeBankChars, List.map_append] <;> decide
  · exact ⟨by decide, by decide, by decide, by decide, by decide⟩

/-- Claim C7: evaluation of `processTextContent` at a two-row glyph page.
The glyph at native `y = 90` (top of the page, top-down Y `10`) and the
glyph at native `y = 10` (bottom, top-down Y `90`) are emitted bottom row
first, and the rows are joined with the literal two-character text `\n`
(the source writes `'\\n'`), not with a newline — contradicting both the
claimed ascending-top-down processing order and the claimed
newline-joined, top-to-bottom output. -/
theorem claim_C7_behavior :
    processTextContent [⟨"TOP".toList, 0, 90, 10⟩, ⟨"BOT".toList, 0, 10, 10⟩] 100 =
      "BOT\\nTOP".toList ∧
    processTextContent [⟨"TOP".toList, 0, 90, 10⟩, ⟨"BOT".toList, 0, 10, 10⟩] 100 ≠
      ("TOP".toList ++ '\n' :: "BOT".toList) := by
  refine ⟨by decide, by decide⟩

/-- Claim C8, counterexample: a glyph with zero-length text is not skipped
by `processTextContent` — removing it changes the output, because it
updates the spacing state `lastEndX` to its `x + width`. -/
theorem claim_C8_counterexample :
    processTextContent [⟨[], 0, 50, 40⟩, ⟨"A".toList, 48, 50, 5⟩] 100 ≠
      processTextContent [⟨"A".toList, 48, 50, 5⟩] 100 := by
  decide

/-- Claim C8, amended: an empty glyph list yields the empty string, but a
zero-length-text glyph is not skipped: in a row it still updates the
spacing state (here contributing two leading spaces before `A`), and alone
it still starts a row of its own (here contributing an extra row
separator before `B`). -/
theorem claim_C8_amended :
    (∀ h : Int, processTextContent [] h = []) ∧
    processTextContent [⟨[], 0, 50, 40⟩, ⟨"A".toList, 48, 50, 5⟩] 100 = "  A".toList ∧
    processTextContent [⟨"A".toList, 48, 50, 5⟩] 100 = "A".toList ∧
    processTextContent [⟨[], 0, 50, 40⟩, ⟨"B".toList, 0, 90, 5⟩] 100 = "\\nB".toList ∧
    processTextContent [⟨"B".toList, 0, 90, 5⟩] 100 = "B".toList := by
  refine ⟨fun h => rfl, by decide, by decide, by decide, by decide⟩

theorem processIndividualFile_base (compress : OcrFile → Except String OcrFile)
    (file : OcrFile) (h : file.size ≤ MAX_PREMIUM_FILE_SIZE) :
    processIndividualFile compress file = (.ok (), [file.size]) := by
  rw [processIndividualFile]
  rw [dif_neg (Nat.not_lt.mpr h)]

theorem processIndividualFile_sizes (compress : OcrFile → Except String OcrFile)
    (file : OcrFile) :
    ∀ s ∈ (processIndividualFile compress file).2, s ≤ MAX_PREMIUM_FILE_SIZE := by
  intro s hs
  rcases Nat.lt_or_ge MAX_PREMIUM_FILE_SIZE file.size with hbig | hsmall
  · rw [processIndividualFile, dif_pos hbig] at hs
    cases him : file.isImage with
    | false => rw [him] at hs; simp at hs
    | true =>
      rw [him] at hs
      simp only [if_true] at hs
      cases hcp : compress file with
      | error e => rw [hcp] at hs; simp at hs
      | ok cf =>
        rw [hcp] at hs
        dsimp only [] at hs
        by_cases hcf : cf.size ≤ MAX_FILE_SIZE
        · rw [dif_pos hcf, processIndividualFile_base compress cf
            (by simp only [MAX_FILE_SIZE, MAX_PREMIUM_FILE_SIZE] at hcf ⊢; omega)] at hs
          simp at hs
          subst hs
          simp only [MAX_FILE_SIZE, MAX_PREMIUM_FILE_SIZE] at hcf ⊢
          omega
        · rw [dif_neg hcf] at hs
          simp at hs
  · rw [processIndividualFile_base compress file hsmall] at hs
    simp at hs
    subst hs
    exact hsmall

theorem processImagePages_sizes (compressPage compress : OcrFile → Except String OcrFile)
    (files : List OcrFile) :
    ∀ s ∈ processImagePages compressPage compress files, s ≤ MAX_PREMIUM_FILE_SIZE := by
  unfold processImagePages
  suffices h : ∀ acc : List Nat, (∀ s ∈ acc, s ≤ MAX_PREMIUM_FILE_SIZE) →
      ∀ s ∈ files.foldl
        (fun acc f =>
          let toProcess :=
            if 100 * f.size > 95 * (1024 * 1024) then
              match compressPage f with
              | .ok cf => cf
              | .error _ => f
            else f
          acc ++ (processIndividualFile compress toProcess).2) acc,
        s ≤ MAX_PREMIUM_FILE_SIZE by
    exact h [] (by simp)
  induction files with
  | nil => intro acc hacc; simpa using hacc
  | cons f t ih =>
    intro acc hacc s hs
    refine ih _ ?_ s hs
    intro x hx
    rcases List.mem_append.mp hx with hx | hx
    · exact hacc x hx
    · exact processIndividualFile_sizes compress _ x hx

/-- Claim C4, counterexample: a 2 MiB page image on the 1 MiB free-tier
ceiling.  `processIndividualFile` transmits the 2 MiB payload directly —
no compression attempt, no size-exceeded failure — and in
`processImagePages` the one pre-compression attempt (here returning
1.5 MiB, still over the 1 MiB ceiling) is followed by transmission of the
oversized payload rather than a failure. -/
theorem claim_C4_counterexample :
    processIndividualFile (fun f => .ok f) ⟨2097152, true⟩ = (.ok (), [2097152]) ∧
    MAX_FILE_SIZE < 2097152 ∧
    processImagePages (fun _ => .ok ⟨1572864, true⟩) (fun f => .ok f) [⟨2097152, true⟩] =
      [1572864] ∧
    MAX_FILE_SIZE < 1572864 := by
  refine ⟨processIndividualFile_base _ _ (by simp [MAX_PREMIUM_FILE_SIZE]), by simp [MAX_FILE_SIZE], ?_, by simp [MAX_FILE_SIZE]⟩
  unfold processImagePages
  simp only [List.foldl_cons, List.foldl_nil]
  rw [if_pos (by norm_num)]
  rw [processIndividualFile_base _ _ (by simp [MAX_PREMIUM_FILE_SIZE])]
  simp

/-- Claim C4, amended: the ceiling actually enforced before transmission is
the 5 MiB `MAX_PREMIUM_FILE_SIZE`: every transmitted payload (also through
`processImagePages`) is at most 5 MiB; a payload over 5 MiB is compressed
once when it is an image and retransmitted only if the result is at most
the 1 MiB `MAX_FILE_SIZE`, otherwise that page's OCR step fails with a
size-exceeded error; but any payload at most 5 MiB is transmitted as-is,
even above the 1 MiB free-tier ceiling. -/
theorem claim_C4_amended (compress : OcrFile → Except String OcrFile) (file : OcrFile) :
    (∀ s ∈ (processIndividualFile compress file).2, s ≤ MAX_PREMIUM_FILE_SIZE) ∧
    (∀ compressPage : OcrFile → Except String OcrFile, ∀ files : List OcrFile,
      ∀ s ∈ processImagePages compressPage compress files, s ≤ MAX_PREMIUM_FILE_SIZE) ∧
    (file.size ≤ MAX_PREMIUM_FILE_SIZE →
      processIndividualFile compress file = (.ok (), [file.size])) ∧
    (MAX_PREMIUM_FILE_SIZE < file.size → file.isImage = false →
      processIndividualFile compress file = (.error "file too large for processing", [])) ∧
    (MAX_PREMIUM_FILE_SIZE < file.size → file.isImage = true →
      ∀ cf, compress file = .ok cf →
        processIndividualFile compress file =
          if cf.size ≤ MAX_FILE_SIZE then (.ok (), [cf.size])
          else (.error "too large even after compression", [])) := by
  refine ⟨processIndividualFile_sizes compress file,
    fun compressPage files => processImagePages_sizes compressPage compress files,
    processIndividualFile_base compress file, ?_, ?_⟩
  · intro hbig him
    rw [processIndividualFile, dif_pos hbig, him]
    simp
  · intro hbig him cf hcp
    rw [processIndividualFile, dif_pos hbig, him]
    simp only [if_true, hcp]
    by_cases hcf : cf.size ≤ MAX_FILE_SIZE
    · rw [dif_pos hcf, if_pos hcf, processIndividualFile_base compress cf
        (by simp only [MAX_FILE_SIZE, MAX_PREMIUM_FILE_SIZE] at hcf ⊢; omega)]
    · rw [dif_neg hcf, if_neg hcf]

/-- Witness for the amended claim C4: concrete instances of the
size-bound, the over-5-MiB failure for a non-image, and the
compress-then-fail path when compression leaves the image over 1 MiB. -/
theorem claim_C4_amended_witness :
    (∀ s ∈ (processIndividualFile (fun f => .ok f) ⟨2097152, true⟩).2,
      s ≤ MAX_PREMIUM_FILE_SIZE) ∧
    processIndividualFile (fun f => .ok f) ⟨6291456, false⟩ =
      (.error "file too large for processing", []) ∧
    processIndividualFile (fun _ => .ok ⟨2097152, true⟩) ⟨6291456, true⟩ =
      (.error "too large even after compression", []) := by
  refine ⟨(claim_C4_amended (fun f => .ok f) ⟨2097152, true⟩).1, ?_, ?_⟩
  · exact (claim_C4_amended (fun f => .ok f) ⟨6291456, false⟩).2.2.2.1
      (by simp [MAX_PREMIUM_FILE_SIZE]) rfl
  · have h := (claim_C4_amended (fun _ => .ok ⟨2097152, true⟩) ⟨6291456, true⟩).2.2.2.2
      (by simp [MAX_PREMIUM_FILE_SIZE]) rfl ⟨2097152, true⟩ rfl
    rw [h, if_neg (by simp [MAX_FILE_SIZE])]

/-- Claim C6: the remote OCR request wrapper retries a failed request up to
2 additional times (3 attempts in total) against the same request, sleeping
a fixed 1000 ms before each retry, surfaces the last error only after all
three attempts failed, and returns as soon as an attempt succeeds. -/
theorem claim_C6 (attempt : Nat → Except String String) :
    (∀ e0 e1 e2 : String, attempt 0 = .error e0 → attempt 1 = .error e1 →
      attempt 2 = .error e2 →
      extractTextFromImage attempt 0 = (.error e2, [1000, 1000])) ∧
    (∀ t, attempt 0 = .ok t → extractTextFromImage attempt 0 = (.ok t, [])) ∧
    (∀ e0 t, attempt 0 = .error e0 → attempt 1 = .ok t →
      extractTextFromImage attempt 0 = (.ok t, [1000])) ∧
    (∀ e0 e1 t, attempt 0 = .error e0 → attempt 1 = .error e1 → attempt 2 = .ok t →
      extractTextFromImage attempt 0 = (.ok t, [1000, 1000])) := by
  refine ⟨?_, ?_, ?_, ?_⟩
  · intro e0 e1 e2 h0 h1 h2
    have s2 : extractTextFromImage attempt 2 = (.error e2, []) := by
      rw [extractTextFromImage, h2]
      simp
    have s1 : extractTextFromImage attempt 1 = (.error e2, [1000]) := by
      rw [extractTextFromImage, h1]
      simp [s2]
    rw [extractTextFromImage, h0]
    simp [s1]
  · intro t h0
    rw [extractTextFromImage, h0]
  · intro e0 t h0 h1
    have s1 : extractTextFromImage attempt 1 = (.ok t, []) := by
      rw [extractTextFromImage, h1]
    rw [extractTextFromImage, h0]
    simp [s1]
  · intro e0 e1 t h0 h1 h2
    have s2 : extractTextFromImage attempt 2 = (.ok t, []) := by
      rw [extractTextFromImage, h2]
    have s1 : extractTextFromImage attempt 1 = (.ok t, [1000]) := by
      rw [extractTextFromImage, h1]
      simp [s2]
    rw [extractTextFromImage, h0]
    simp [s1]

/-- Witness for claim C6: an oracle failing on every attempt yields the
third attempt's error after two 1-second delays, and an oracle succeeding
on the second attempt yields its text after one delay. -/
theorem claim_C6_witness :
    extractTextFromImage (fun _ => .error "network down") 0 =
      (.error "network down", [1000, 1000]) ∧
    extractTextFromImage (fun i => if i = 0 then .error "hiccup" else .ok "texto") 0 =
      (.ok "texto", [1000]) := by
  refine ⟨(claim_C6 (fun _ => .error "network down")).1 "network down" "network down"
      "network down" rfl rfl rfl,
    (claim_C6 (fun i => if i = 0 then .error "hiccup" else .ok "texto")).2.2.1 "hiccup"
      "texto" rfl rfl⟩

theorem pages_foldl_snd (g : List Char × List Nat → Nat → List Char) :
    ∀ (l : List Nat) (acc : List Char × List Nat),
      (l.foldl (fun a i => (g a i, a.2 ++ [i])) acc).2 = acc.2 ++ l := by
  intro l
  induction l with
  | nil => intro acc; simp
  | cons i t ih =>
    intro acc
    rw [List.foldl_cons, ih]
    simp

/-- Claim C9, counterexample: `processPdfByPages` on a five-page document
processes all five pages — the fifth page is converted and sent, so the
claimed min(numPages, 4) cap does not hold on this remote-OCR path. -/
theorem claim_C9_counterexample :
    (processPdfByPages 5 (fun _ => [])).2 = [1, 2, 3, 4, 5] ∧
    5 ∈ (processPdfByPages 5 (fun _ => [])).2 ∧
    ¬ ((processPdfByPages 5 (fun _ => [])).2.length ≤ 4) := by
  have h : (processPdfByPages 5 (fun _ => [])).2 = [1, 2, 3, 4, 5] := by
    unfold processPdfByPages
    rw [pages_foldl_snd]
    rfl
  refine ⟨h, by rw [h]; simp, by rw [h]; simp⟩

/-- Claim C9, amended: the OCR-API remote path (`extractTextWithOCR`)
processes exactly the pages `1 .. min(numPages, 4)` in order — at most 4
pages, never a page number above 4 — while the OCR-service path
(`processPdfByPages`) processes all `numPages` pages with no cap. -/
theorem claim_C9_amended (numPages : Nat) (pageText : Nat → List Char) :
    (extractTextWithOCR numPages pageText).2 = List.range' 1 (min numPages 4) ∧
    (extractTextWithOCR numPages pageText).2.length ≤ 4 ∧
    ((extractTextWithOCR numPages pageText).2.all (fun p => decide (p ≤ 4))) = true ∧
    (processPdfByPages numPages pageText).2 = List.range' 1 numPages := by
  have h1 : (extractTextWithOCR numPages pageText).2 = List.range' 1 (min numPages 4) := by
    unfold extractTextWithOCR
    rw [pages_foldl_snd]
    simp
  have h4 : (processPdfByPages numPages pageText).2 = List.range' 1 numPages := by
    unfold processPdfByPages
    rw [pages_foldl_snd]
    simp
  refine ⟨h1, ?_, ?_, h4⟩
  · rw [h1, List.length_range']
    omega
  · rw [h1, List.all_eq_true]
    intro p hp
    have := List.mem_range'_1.mp hp
    simp only [decide_eq_true_eq]
    omega

end BancaInteligente
